import Mathlib

/-!
# Shallow embedding of the smooth_feedback QP solver

This file embeds the ADMM quadratic-program solver `solveQP` and the
solution polisher `polishQP` of `include/smooth/feedback/qp.hpp`
(repository `smooth_feedback`) and proves properties of the embedding.

Modelling conventions:

* The floating-point scalar type is idealised as `ℚ`.  The bound vectors
  `l`, `u` may carry IEEE ±∞ sentinels, so they take values in the
  extended type `ER` (`ninf | fin q | pinf`).
* The LDLT backends (`LDLTLapack`, `LDLTSparse`) call LAPACK, which is
  external to the repository; a factorization is therefore modelled as an
  oracle: an integer `info` status (0 = success, as documented in
  `ldlt_lapack.hpp`) together with a solve function.
* Eigen coefficient reductions (`minCoeff`, `maxCoeff`) on empty vectors
  are not defined; the corresponding embedded reductions return `Option`
  and `solveQP` propagates the undefinedness as `none`.
* `i % prm.stop_check_iter` with `stop_check_iter == 0` is a remainder by
  zero (undefined behaviour); the embedded loop returns `none` when the
  guard would be evaluated with a zero modulus.
-/

namespace SmoothFeedback

/-- Extended rationals: the value set of an IEEE scalar restricted to
`{-∞} ∪ ℚ ∪ {+∞}` (NaN never arises on the paths modelled here; where
IEEE arithmetic would produce NaN the operation notes choose an
arbitrary value and the choice is shown immaterial). -/
inductive ER where
  | ninf : ER
  | fin : ℚ → ER
  | pinf : ER
deriving DecidableEq, Repr

namespace ER

/-- IEEE subtraction on extended values. `pinf.sub pinf` and
`ninf.sub ninf` would be NaN; they are only reached in the pre-flight
check on inputs that the check rejects through the `l`/`u` sentinel
tests regardless of the value chosen here. -/
def sub : ER → ER → ER
  | pinf, _ => pinf
  | ninf, _ => ninf
  | fin _, pinf => ninf
  | fin _, ninf => pinf
  | fin a, fin b => fin (a - b)

/-- IEEE addition on extended values; `pinf.add ninf` (NaN) is never
reached on the modelled paths. -/
def add : ER → ER → ER
  | fin a, fin b => fin (a + b)
  | pinf, _ => pinf
  | ninf, _ => ninf
  | fin _, pinf => pinf
  | fin _, ninf => ninf

/-- Multiplication of an extended bound by a finite factor.  The
`±∞ * 0` cases (IEEE NaN) choose `fin 0`; they are unreachable after
the pre-flight check. -/
def mulQ : ER → ℚ → ER
  | fin a, w => fin (a * w)
  | pinf, w => if 0 < w then pinf else if w < 0 then ninf else fin 0
  | ninf, w => if 0 < w then ninf else if w < 0 then pinf else fin 0

/-- Strict order on extended values (IEEE `<` restricted to non-NaN). -/
def ltb : ER → ER → Bool
  | ninf, ninf => false
  | ninf, _ => true
  | fin _, ninf => false
  | fin a, fin b => decide (a < b)
  | fin _, pinf => true
  | pinf, _ => false

/-- The `std::max` semantics: returns the second argument iff the first is
strictly smaller. -/
def emax (a b : ER) : ER := if a.ltb b then b else a

/-- The `std::min` semantics (used for Eigen `minCoeff` folds). -/
def emin (a b : ER) : ER := if b.ltb a then b else a

/-- Coefficient-wise `cwiseMax` of a finite value with an extended lower
bound.  A `pinf` bound would give `+∞`; after the pre-flight check `l`
has no `+∞` entry, so that case is unreachable and kept finite. -/
def cmax (v : ℚ) : ER → ℚ
  | ninf => v
  | fin a => max v a
  | pinf => v

/-- Coefficient-wise `cwiseMin` of a finite value with an extended upper
bound.  A `ninf` bound would give `-∞`; after the pre-flight check `u`
has no `-∞` entry, so that case is unreachable and kept finite. -/
def cmin (v : ℚ) : ER → ℚ
  | pinf => v
  | fin a => min v a
  | ninf => v

/-- Finite part of an extended value.  Used only where the source reads
`l`/`u` entries that are finite in every execution that reaches the
read; infinities are idealised to `0`. -/
def toRatD : ER → ℚ
  | fin a => a
  | _ => 0

end ER

/-- Infinity norm `lpNorm<Eigen::Infinity>` of a finite vector. -/
def vnorm {k : ℕ} (v : Fin k → ℚ) : ℚ :=
  (List.finRange k).foldl (fun a i => max a |v i|) 0

/-- Dense matrix-vector product. -/
def mulv {a b : ℕ} (M : Fin a → Fin b → ℚ) (v : Fin b → ℚ) : Fin a → ℚ :=
  fun i => ∑ j, M i j * v j

/-- Transposed matrix-vector product (`A.transpose() * y`). -/
def mulvT {a b : ℕ} (M : Fin a → Fin b → ℚ) (v : Fin a → ℚ) : Fin b → ℚ :=
  fun j => ∑ i, M i j * v i

/-- Dot product (`q.dot(dx)`). -/
def dotv {a : ℕ} (v w : Fin a → ℚ) : ℚ := ∑ i, v i * w i

/-- Quadratic program `min ½ xᵀPx + qᵀx  s.t.  l ≤ Ax ≤ u`
(`QuadraticProgram` / `QuadraticProgramSparse`, with `m` constraints and
`n` variables). -/
structure QPData (n m : ℕ) where
  P : Fin n → Fin n → ℚ
  q : Fin n → ℚ
  A : Fin m → Fin n → ℚ
  l : Fin m → ER
  u : Fin m → ER

/-- Solver exit codes (`ExitCode`). -/
inductive ExitCode where
  | Optimal
  | PolishFailed
  | PrimalInfeasible
  | DualInfeasible
  | MaxIterations
  | Unknown
deriving DecidableEq, Repr

/-- Solver solution (`Solution<M, N, Scalar>`); `none` models an
empty/default-constructed Eigen vector. -/
structure Solution (n m : ℕ) where
  code : ExitCode
  primal : Option (Fin n → ℚ)
  dual : Option (Fin m → ℚ)

/-- A solution with populated primal and dual vectors (the shape passed
to and mutated by `polishQP`). -/
structure PSol (n m : ℕ) where
  code : ExitCode
  primal : Fin n → ℚ
  dual : Fin m → ℚ

/-- The options record `SolverParams`.  Scalar fields are idealised from their
single-precision defaults to the rationals they denote. -/
structure SolverParams where
  alpha : ℚ := 8 / 5
  rho : ℚ := 1 / 10
  sigma : ℚ := 1 / 1000000
  eps_abs : ℚ := 1 / 1000
  eps_rel : ℚ := 1 / 1000
  eps_primal_inf : ℚ := 1 / 10000
  eps_dual_inf : ℚ := 1 / 10000
  max_iter : ℕ := 18446744073709551615
  stop_check_iter : ℕ := 10
  polish : Bool := true
  polish_iter : ℕ := 5
  delta : ℚ := 1 / 1000000

/-- Eigen `minCoeff` under `ER.emin`: undefined (`none`) on an empty
vector, otherwise the left fold of the binary minimum. -/
def minCoeffER {m : ℕ} (v : Fin m → ER) : Option ER :=
  match (List.finRange m).map v with
  | [] => none
  | a :: rest => some (rest.foldl ER.emin a)

/-- Eigen `maxCoeff` under `ER.emax`: undefined (`none`) on an empty
vector. -/
def maxCoeffER {m : ℕ} (v : Fin m → ER) : Option ER :=
  match (List.finRange m).map v with
  | [] => none
  | a :: rest => some (rest.foldl ER.emax a)

/-- Pre-flight feasibility check of `solveQP` (qp.hpp:241-242):
`(u - l).minCoeff() < 0 || l.maxCoeff() == inf || u.minCoeff() == -inf`.
Undefined (`none`) when `m = 0`, since the three Eigen reductions are
then over empty vectors. -/
def preflight {n m : ℕ} (pbm : QPData n m) : Option Bool :=
  match minCoeffER (fun i => (pbm.u i).sub (pbm.l i)), maxCoeffER pbm.l,
      minCoeffER pbm.u with
  | some a, some b, some c =>
      some (a.ltb (ER.fin 0) || decide (b = ER.pinf) || decide (c = ER.ninf))
  | _, _, _ => none

/-- Iterates of the ADMM loop: primal `x`, auxiliary `z`, dual `y`. -/
structure Iterates (n m : ℕ) where
  x : Fin n → ℚ
  z : Fin m → ℚ
  y : Fin m → ℚ

/-- Right-hand side `h = [σ x − q ; z − y/ρ]` of the KKT solve
(qp.hpp:310), as a length-`n+m` vector. -/
def rhsVec {n m : ℕ} (pbm : QPData n m) (prm : SolverParams)
    (s : Iterates n m) : ℕ → ℚ :=
  fun j =>
    if hj : j < n then prm.sigma * s.x ⟨j, hj⟩ - pbm.q ⟨j, hj⟩
    else if hj2 : j - n < m then s.z ⟨j - n, hj2⟩ - s.y ⟨j - n, hj2⟩ / prm.rho
    else 0

/-- One ADMM iteration (qp.hpp:310-318).  `kktSolve` is the LDLT
oracle for the factorized KKT matrix `H`. -/
def admmUpdate {n m : ℕ} (pbm : QPData n m) (prm : SolverParams)
    (kktSolve : (ℕ → ℚ) → ℕ → ℚ) (s : Iterates n m) : Iterates n m :=
  let p := kktSolve (rhsVec pbm prm s)
  let z_tilde : Fin m → ℚ := fun i => s.z i + (p (n + i.val) - s.y i) / prm.rho
  let x_next : Fin n → ℚ := fun i => prm.alpha * p i.val + (1 - prm.alpha) * s.x i
  let z_interp : Fin m → ℚ := fun i => prm.alpha * z_tilde i + (1 - prm.alpha) * s.z i
  let z_next : Fin m → ℚ :=
    fun i => ER.cmin (ER.cmax (z_interp i + s.y i / prm.rho) (pbm.l i)) (pbm.u i)
  let y_next : Fin m → ℚ := fun i => s.y i + prm.rho * (z_interp i - z_next i)
  ⟨x_next, z_next, y_next⟩

/-- The scan computing `u_dyp_plus_l_dyn` (qp.hpp:348-364): for each
constraint it adds `u(i)·max(0, dy(i))` when `u(i) ≠ +∞`, aborting with
`+∞` when `u(i) = +∞` and `dy(i) > eps_primal_inf·‖dy‖∞`, then the
symmetric step for `l(i)`. -/
def uDypScan {n m : ℕ} (pbm : QPData n m) (prm : SolverParams) (dy : Fin m → ℚ)
    (dyn : ℚ) : List (Fin m) → ER → ER
  | [], acc => acc
  | i :: rest, acc =>
    let step1 : Option ER :=
      if pbm.u i ≠ ER.pinf then some (acc.add ((pbm.u i).mulQ (max 0 (dy i))))
      else if prm.eps_primal_inf * dyn < dy i then none
      else some acc
    match step1 with
    | none => ER.pinf
    | some a =>
      let step2 : Option ER :=
        if pbm.l i ≠ ER.ninf then some (a.add ((pbm.l i).mulQ (min 0 (dy i))))
        else if dy i < -(prm.eps_primal_inf * dyn) then none
        else some a
      match step2 with
      | none => ER.pinf
      | some b => uDypScan pbm prm dy dyn rest b

/-- The scan value `u_dyp_plus_l_dyn` over all `m` constraints starting from `0`. -/
def uDypPlusLDyn {n m : ℕ} (pbm : QPData n m) (prm : SolverParams)
    (dy : Fin m → ℚ) (dyn : ℚ) : ER :=
  uDypScan pbm prm dy dyn (List.finRange m) (ER.fin 0)

/-- The `dual_infeasible` flag (qp.hpp:372-383).  The source loop exits
as soon as the flag is false; since `false && c = false` the left fold
over all constraints computes the same value. -/
def dualInfFold {n m : ℕ} (pbm : QPData n m) (prm : SolverParams)
    (dx : Fin n → ℚ) (dxn : ℚ) : Bool :=
  let base := decide (vnorm (mulv pbm.P dx) ≤ prm.eps_dual_inf * dxn) &&
    decide (dotv pbm.q dx ≤ prm.eps_dual_inf * dxn)
  let Adx := mulv pbm.A dx
  (List.finRange m).foldl
    (fun b i => b &&
      (if pbm.u i = ER.pinf then decide (-(prm.eps_dual_inf * dxn) ≤ Adx i)
       else if pbm.l i = ER.ninf then decide (Adx i ≤ prm.eps_dual_inf * dxn)
       else decide (|Adx i| < prm.eps_dual_inf * dxn))) base

/-- Outcome of the ADMM loop before polishing. -/
inductive LoopRes (n m : ℕ) where
  | optimal (x : Fin n → ℚ) (y : Fin m → ℚ)
  | primalInf
  | dualInf
  | maxIters (x : Fin n → ℚ) (y : Fin m → ℚ)

/-- The termination-check block (qp.hpp:322-388) run at iteration `i`
when `i % stop_check_iter == stop_check_iter - 1`: optimality on the
current (uncommitted) `x, y, z` of `s`, then the primal- and
dual-infeasibility certificates on `dx = x_next − x`, `dy = y_next − y`.
Returns `none` when no criterion fires and the loop continues. -/
def stopCheck {n m : ℕ} (pbm : QPData n m) (prm : SolverParams)
    (s snext : Iterates n m) : Option (LoopRes n m) :=
  let Px := mulv pbm.P s.x
  let Ax := mulv pbm.A s.x
  let Aty := mulvT pbm.A s.y
  let primal_scale := max (vnorm Ax) (vnorm s.z)
  let dual_scale := max (vnorm Px) (max (vnorm pbm.q) (vnorm Aty))
  if vnorm (fun i => Ax i - s.z i) ≤ prm.eps_abs + prm.eps_rel * primal_scale ∧
      vnorm (fun i => Px i + pbm.q i + Aty i) ≤ prm.eps_abs + prm.eps_abs * dual_scale then
    some (.optimal s.x s.y)
  else
    let dx : Fin n → ℚ := fun i => snext.x i - s.x i
    let dy : Fin m → ℚ := fun i => snext.y i - s.y i
    let dx_norm := vnorm dx
    let dy_norm := vnorm dy
    let At_dy_norm := vnorm (mulvT pbm.A dy)
    if ((ER.fin At_dy_norm).emax (uDypPlusLDyn pbm prm dy dy_norm)).ltb
        (ER.fin (prm.eps_primal_inf * dy_norm)) then
      some .primalInf
    else if dualInfFold pbm prm dx dx_norm then
      some .dualInf
    else
      none

/-- The ADMM iteration loop (qp.hpp:306-393), recursing on the number
`r` of remaining iterations with `i` the current iteration index.  When
the remaining budget is exhausted the last committed iterates are
returned as `MaxIterations`.  A zero `stop_check_iter` makes the guard
`i % stop_check_iter == stop_check_iter - 1` a remainder by zero, which
is undefined; the loop then returns `none`. -/
def solveLoop {n m : ℕ} (pbm : QPData n m) (prm : SolverParams)
    (kktSolve : (ℕ → ℚ) → ℕ → ℚ) : Iterates n m → ℕ → ℕ → Option (LoopRes n m)
  | s, _, 0 => some (.maxIters s.x s.y)
  | s, i, r + 1 =>
    let snext := admmUpdate pbm prm kktSolve s
    if prm.stop_check_iter = 0 then none
    else if i % prm.stop_check_iter = prm.stop_check_iter - 1 then
      match stopCheck pbm prm s snext with
      | some res => some res
      | none => solveLoop pbm prm kktSolve snext (i + 1) r
    else solveLoop pbm prm kktSolve snext (i + 1) r

/-- The ADMM loop with the source's exact counter semantics.  The
counter of `for (auto i = 0u; i != prm.max_iter; ++i)` (qp.hpp:306) is
an `unsigned int` — 32 bits on LP64/LLP64 platforms — compared against
the 64-bit `max_iter`, so it wraps modulo `2^32`.  `fuel` bounds the
number of simulated iterations: `none` means the loop has not exited
within `fuel` iterations, `some none` models the `i % 0` undefined
behaviour, and `some (some res)` an exit with result `res`.
`solveLoopW_agrees` below shows this loop coincides with the
unbounded-counter idealisation `solveLoop` (used in `solveQP`) whenever
`max_iter < 2^32`; `solveLoopW_no_exit` shows that for
`max_iter ≥ 2^32` the budget exit `i == max_iter` is unreachable. -/
def solveLoopW {n m : ℕ} (pbm : QPData n m) (prm : SolverParams)
    (kktSolve : (ℕ → ℚ) → ℕ → ℚ) :
    Iterates n m → ℕ → ℕ → Option (Option (LoopRes n m))
  | _, _, 0 => none
  | s, i, F + 1 =>
    if i = prm.max_iter then some (some (.maxIters s.x s.y))
    else
      let snext := admmUpdate pbm prm kktSolve s
      if prm.stop_check_iter = 0 then some none
      else if i % prm.stop_check_iter = prm.stop_check_iter - 1 then
        match stopCheck pbm prm s snext with
        | some res => some (some res)
        | none => solveLoopW pbm prm kktSolve snext ((i + 1) % 4294967296) F
      else solveLoopW pbm prm kktSolve snext ((i + 1) % 4294967296) F

/-- Initial iterates (qp.hpp:295-304): a hotstart gives
`x = primal, z = A x, y = dual`; otherwise all zero. -/
def initIterates {n m : ℕ} (pbm : QPData n m)
    (hotstart : Option ((Fin n → ℚ) × (Fin m → ℚ))) : Iterates n m :=
  match hotstart with
  | some hs => ⟨hs.1, mulv pbm.A hs.1, hs.2⟩
  | none => ⟨fun _ => 0, fun _ => 0, fun _ => 0⟩

/-- The reduced polish matrix `H'` (qp.hpp:465-469, dense path): the
top-left `n×n` block is `P`, column `n+a` holds row `LU_idx(a)` of `A`
in its first `n` entries, everything else is zero. -/
def polishH {n m : ℕ} (pbm : QPData n m) (LU : List (Fin m)) : ℕ → ℕ → ℚ :=
  fun r c =>
    if hr : r < n then
      if hc : c < n then pbm.P ⟨r, hr⟩ ⟨c, hc⟩
      else
        match LU[c - n]? with
        | some j => pbm.A j ⟨r, hr⟩
        | none => 0
    else 0

/-- The perturbed copy `H'_pert` (qp.hpp:471-482): `+delta` on the
first `n` diagonal entries, `−delta` on the remaining ones.  Its LAPACK
factorization is abstracted by the `(pInfo, pSolve)` oracle of
`polishQP`. -/
def polishHp {n m : ℕ} (pbm : QPData n m) (prm : SolverParams)
    (LU : List (Fin m)) : ℕ → ℕ → ℚ :=
  fun r c =>
    polishH pbm LU r c +
      (if r = c ∧ r < n then prm.delta
       else if r = c ∧ r < n + LU.length then -prm.delta else 0)

/-- The polish right-hand side `h = [−q ; l[L] ; u[U]]` (qp.hpp:484-485).
The selected bounds are finite in every execution that reaches the
polisher; `ER.toRatD` idealises the (unreachable) infinite case. -/
def polishRhs {n m : ℕ} (pbm : QPData n m) (LU : List (Fin m))
    (nl : ℕ) : ℕ → ℚ :=
  fun r =>
    if hr : r < n then -pbm.q ⟨r, hr⟩
    else
      match LU[r - n]? with
      | some j => if r - n < nl then (pbm.l j).toRatD else (pbm.u j).toRatD
      | none => 0

/-- The symmetric upper view `H.selfadjointView<Eigen::Upper>()`. -/
def symUpper (H : ℕ → ℕ → ℚ) : ℕ → ℕ → ℚ :=
  fun r c => if r ≤ c then H r c else H c r

/-- Product of a `k×k` matrix with a length-`k` vector over
`ℕ`-indexed representations. -/
def matVecN (k : ℕ) (M : ℕ → ℕ → ℚ) (v : ℕ → ℚ) : ℕ → ℚ :=
  fun r => ((List.range k).map (fun c => M r c * v c)).sum

/-- One iterative-refinement step (qp.hpp:498-500):
`t := t + solve(h − H'·t)` with the symmetric upper-view product. -/
def refineStep (k : ℕ) (pSolve : (ℕ → ℚ) → ℕ → ℚ) (H : ℕ → ℕ → ℚ)
    (h : ℕ → ℚ) (t : ℕ → ℚ) : ℕ → ℚ :=
  fun r => t r + pSolve (fun c => h c - matVecN k (symUpper H) t c) r

/-- The dual-update loops of the polisher (qp.hpp:505-506): writing
`t(k)` into `dual(LU(k−n))` for consecutive offsets `k = n, n+1, …`
(the two source loops cover the `L` then the `U` indices, i.e. the
positions `0 … nl+nu−1` of `LU_idx` in order). -/
def writeDualAux {m : ℕ} (t : ℕ → ℚ) : ℕ → List (Fin m) → (Fin m → ℚ) → Fin m → ℚ
  | _, [], d => d
  | k, j :: rest, d => writeDualAux t (k + 1) rest (Function.update d j (t k))

/-- The lower active set `L = { i : dual[i] < 0 }` in index order
(qp.hpp:419-429). -/
def activeL {m : ℕ} (dual : Fin m → ℚ) : List (Fin m) :=
  (List.finRange m).filter (fun i => decide (dual i < 0))

/-- The upper active set `U = { i : dual[i] > 0 }` in index order
(qp.hpp:419-429). -/
def activeU {m : ℕ} (dual : Fin m → ℚ) : List (Fin m) :=
  (List.finRange m).filter (fun i => decide (0 < dual i))

/-- The index vector `LU_idx`: the `L` indices followed by the `U` indices. -/
def activeLU {m : ℕ} (dual : Fin m → ℚ) : List (Fin m) :=
  activeL dual ++ activeU dual

/-- The refined vector `t_hat` after `polish_iter` refinement steps
(qp.hpp:497-500), starting from zero. -/
def polishVec {n m : ℕ} (pbm : QPData n m) (prm : SolverParams)
    (pSolve : (ℕ → ℚ) → ℕ → ℚ) (sol : PSol n m) : ℕ → ℚ :=
  let LU := activeLU sol.dual
  (refineStep (n + (activeL sol.dual).length + (activeU sol.dual).length)
      pSolve (polishH pbm LU)
      (polishRhs pbm LU (activeL sol.dual).length))^[prm.polish_iter]
    (fun _ => 0)

/-- The polisher `polishQP` (qp.hpp:405-509).  `pInfo` and `pSolve` are the
factorization oracle for `H'_pert` (`info` status and solve). -/
def polishQP {n m : ℕ} (pbm : QPData n m) (prm : SolverParams) (pInfo : ℤ)
    (pSolve : (ℕ → ℚ) → ℕ → ℚ) (sol : PSol n m) : PSol n m :=
  if pInfo ≠ 0 then { sol with code := .PolishFailed }
  else
    let t := polishVec pbm prm pSolve sol
    { sol with
      primal := fun i => t i.val
      dual := writeDualAux t n (activeLU sol.dual) sol.dual }

/-- Wrap a populated solution. -/
def toSolution {n m : ℕ} (s : PSol n m) : Solution n m :=
  ⟨s.code, some s.primal, some s.dual⟩

/-- The solver `solveQP` (qp.hpp:210-394).  `kktInfo`/`kktSolve` are the
factorization oracle for the KKT matrix `H`, `pInfo`/`pSolve` the one
for the polisher; `none` models undefined behaviour (empty-vector
reductions when `m = 0`, remainder by zero when
`stop_check_iter = 0`). -/
def solveQP {n m : ℕ} (pbm : QPData n m) (prm : SolverParams)
    (hotstart : Option ((Fin n → ℚ) × (Fin m → ℚ)))
    (kktInfo : ℤ) (kktSolve : (ℕ → ℚ) → ℕ → ℚ)
    (pInfo : ℤ) (pSolve : (ℕ → ℚ) → ℕ → ℚ) : Option (Solution n m) :=
  match preflight pbm with
  | none => none
  | some true => some ⟨.PrimalInfeasible, none, none⟩
  | some false =>
    if kktInfo ≠ 0 then some ⟨.Unknown, none, none⟩
    else
      match solveLoop pbm prm kktSolve (initIterates pbm hotstart) 0 prm.max_iter with
      | none => none
      | some (.optimal x y) =>
          if prm.polish then
            some (toSolution (polishQP pbm prm pInfo pSolve ⟨.Optimal, x, y⟩))
          else some (toSolution ⟨.Optimal, x, y⟩)
      | some .primalInf => some ⟨.PrimalInfeasible, none, none⟩
      | some .dualInf => some ⟨.DualInfeasible, none, none⟩
      | some (.maxIters x y) => some ⟨.MaxIterations, some x, some y⟩

/-- The pre-flight rejection conditions of claim C3 as a predicate. -/
def PreflightBad {n m : ℕ} (pbm : QPData n m) : Prop :=
  (∃ i, ((pbm.u i).sub (pbm.l i)).ltb (ER.fin 0) = true) ∨
    (∃ i, pbm.l i = ER.pinf) ∨ (∃ i, pbm.u i = ER.ninf)

/-- The abort (certificate-destroying) condition of the
`u_dyp_plus_l_dyn` scan at constraint `i`. -/
def ScanAbort {n m : ℕ} (pbm : QPData n m) (prm : SolverParams)
    (dy : Fin m → ℚ) (dyn : ℚ) (i : Fin m) : Prop :=
  (pbm.u i = ER.pinf ∧ prm.eps_primal_inf * dyn < dy i) ∨
    (pbm.l i = ER.ninf ∧ dy i < -(prm.eps_primal_inf * dyn))

/-- The finite contribution of constraint `i` to `u_dyp_plus_l_dyn`:
`u[i]·max(0, dy[i])` when `u[i] ≠ +∞` plus `l[i]·min(0, dy[i])` when
`l[i] ≠ −∞`. -/
def scanTerm {n m : ℕ} (pbm : QPData n m) (dy : Fin m → ℚ) (i : Fin m) : ℚ :=
  (if pbm.u i = ER.pinf then 0 else (pbm.u i).toRatD * max 0 (dy i)) +
    (if pbm.l i = ER.ninf then 0 else (pbm.l i).toRatD * min 0 (dy i))

instance {n m : ℕ} (pbm : QPData n m) (prm : SolverParams) (dy : Fin m → ℚ)
    (dyn : ℚ) (i : Fin m) : Decidable (ScanAbort pbm prm dy dyn i) := by
  unfold ScanAbort
  exact inferInstance

/-! Concrete instances used to evaluate the theorems below on closed
inputs. -/

/-- A 1-variable, 1-constraint problem: `min x² − 4x  s.t.  0 ≤ x ≤ 1`. -/
def exPbm : QPData 1 1 :=
  ⟨fun _ _ => 2, fun _ => -4, fun _ _ => 1, fun _ => ER.fin 0, fun _ => ER.fin 1⟩

/-- The same problem with contradictory bounds `1 ≤ x ≤ 0`. -/
def exPbmBad : QPData 1 1 :=
  ⟨fun _ _ => 2, fun _ => -4, fun _ _ => 1, fun _ => ER.fin 1, fun _ => ER.fin 0⟩

/-- A 1-variable problem with zero constraint rows. -/
def exPbm0 : QPData 1 0 :=
  ⟨fun _ _ => 2, fun _ => -4, fun i _ => i.elim0, fun i => i.elim0, fun i => i.elim0⟩

/-- Parameters checking termination every iteration, with a small
budget and no polishing. -/
def exPrm : SolverParams :=
  { stop_check_iter := 1, max_iter := 3, polish := false }

/-- Parameters with a zero `stop_check_iter`. -/
def exPrmZero : SolverParams :=
  { stop_check_iter := 0, max_iter := 3 }

/-- Parameters with a zero iteration budget. -/
def exPrmNoIter : SolverParams :=
  { stop_check_iter := 1, max_iter := 0 }

/-- Parameters with the budget smaller than the check interval. -/
def exPrmShort : SolverParams :=
  { stop_check_iter := 10, max_iter := 4 }

/-- Parameters with `max_iter = 2^32` (at the wrap-around boundary of
the source's 32-bit loop counter) and a larger check interval. -/
def exPrmHuge : SolverParams :=
  { stop_check_iter := 4294967297, max_iter := 4294967296 }

/-- A trivial LDLT oracle. -/
def exSolve : (ℕ → ℚ) → ℕ → ℚ := fun _ _ => 0

/-- Zero iterates. -/
def exIter : Iterates 1 1 := ⟨fun _ => 0, fun _ => 0, fun _ => 0⟩

/-- Iterates one step away from `exIter` in `x` and `y`. -/
def exIterNext : Iterates 1 1 := ⟨fun _ => 1, fun _ => 0, fun _ => 1⟩

/-- A populated 2-constraint solution with one negative and one
positive dual entry. -/
def exSol : PSol 2 2 :=
  ⟨ExitCode.Optimal, fun _ => 0, fun i => if i.val = 0 then -1 else 1⟩

/-- A 2-variable, 2-constraint problem for the polish theorems. -/
def exPbm2 : QPData 2 2 :=
  ⟨fun i j => if i = j then 2 else 0, fun _ => -1,
   fun i j => if i = j then 1 else 0, fun _ => ER.fin 0, fun _ => ER.fin 1⟩

/-! ## Helper lemmas -/

theorem ER.emin_ltb_iff (a b c : ER) :
    (a.emin b).ltb c = true ↔ (a.ltb c = true ∨ b.ltb c = true) := by
  cases a <;> cases b <;> cases c <;>
    simp only [ER.emin, ER.ltb, decide_eq_true_eq] <;>
    split_ifs <;>
    simp_all [ER.ltb] <;>
    first
    | (constructor <;> intro h2 <;>
        first | tauto | (rcases h2 with h2 | h2 <;> linarith) | linarith)
    | (intro h2 <;> linarith)

theorem ER.emax_ltb_iff (a b c : ER) :
    (a.emax b).ltb c = true ↔ (a.ltb c = true ∧ b.ltb c = true) := by
  cases a <;> cases b <;> cases c <;>
    simp only [ER.emax, ER.ltb, decide_eq_true_eq] <;>
    split_ifs <;>
    simp_all [ER.ltb] <;>
    first
    | (constructor <;> intro h2 <;>
        first | tauto | (rcases h2 with h2 | h2 <;> linarith) | linarith)
    | (intro h2 <;> linarith)

theorem ER.emax_eq_pinf_iff (a b : ER) :
    a.emax b = ER.pinf ↔ a = ER.pinf ∨ b = ER.pinf := by
  cases a <;> cases b <;> simp only [ER.emax, ER.ltb] <;> split_ifs <;> simp_all

theorem ER.emin_eq_ninf_iff (a b : ER) :
    a.emin b = ER.ninf ↔ a = ER.ninf ∨ b = ER.ninf := by
  cases a <;> cases b <;> simp only [ER.emin, ER.ltb] <;> split_ifs <;> simp_all

theorem foldl_emin_ltb_iff (l : List ER) (a c : ER) :
    ((l.foldl ER.emin a).ltb c = true) ↔
      (a.ltb c = true ∨ ∃ x ∈ l, x.ltb c = true) := by
  induction l generalizing a with
  | nil => simp
  | cons x xs ih =>
      rw [List.foldl_cons, ih, ER.emin_ltb_iff]
      simp [or_assoc]

theorem foldl_emax_eq_pinf_iff (l : List ER) (a : ER) :
    (l.foldl ER.emax a = ER.pinf) ↔ (a = ER.pinf ∨ ∃ x ∈ l, x = ER.pinf) := by
  induction l generalizing a with
  | nil => simp
  | cons x xs ih =>
      rw [List.foldl_cons, ih, ER.emax_eq_pinf_iff]
      simp [or_assoc, eq_comm]

theorem foldl_emin_eq_ninf_iff (l : List ER) (a : ER) :
    (l.foldl ER.emin a = ER.ninf) ↔ (a = ER.ninf ∨ ∃ x ∈ l, x = ER.ninf) := by
  induction l generalizing a with
  | nil => simp
  | cons x xs ih =>
      rw [List.foldl_cons, ih, ER.emin_eq_ninf_iff]
      simp [or_assoc, eq_comm]

theorem minCoeffER_isSome {m : ℕ} (hm : 0 < m) (v : Fin m → ER) :
    (minCoeffER v).isSome = true := by
  unfold minCoeffER
  rcases hl : (List.finRange m).map v with _ | ⟨x, xs⟩
  · have hlen : ((List.finRange m).map v).length = m := by simp
    rw [hl] at hlen
    simp at hlen
    omega
  · simp

theorem maxCoeffER_isSome {m : ℕ} (hm : 0 < m) (v : Fin m → ER) :
    (maxCoeffER v).isSome = true := by
  unfold maxCoeffER
  rcases hl : (List.finRange m).map v with _ | ⟨x, xs⟩
  · have hlen : ((List.finRange m).map v).length = m := by simp
    rw [hl] at hlen
    simp at hlen
    omega
  · simp

theorem minCoeffER_ltb_exists {m : ℕ} (v : Fin m → ER) (c a : ER)
    (ha : minCoeffER v = some a) :
    (a.ltb c = true ↔ ∃ i, (v i).ltb c = true) := by
  unfold minCoeffER at ha
  rcases hl : (List.finRange m).map v with _ | ⟨x, xs⟩ <;> rw [hl] at ha
  · exact absurd ha (by simp)
  · have hmem : ∀ e : ER, e ∈ (List.finRange m).map v ↔ ∃ i, v i = e := by
      intro e
      simp [List.mem_map]
    simp only [Option.some.injEq] at ha
    subst ha
    rw [foldl_emin_ltb_iff]
    constructor
    · rintro (hx | ⟨y, hy, hyc⟩)
      · obtain ⟨i, hi⟩ := (hmem x).mp (by rw [hl]; exact List.mem_cons_self x xs)
        exact ⟨i, by rw [hi]; exact hx⟩
      · obtain ⟨i, hi⟩ := (hmem y).mp (by rw [hl]; exact List.mem_cons_of_mem x hy)
        exact ⟨i, by rw [hi]; exact hyc⟩
    · rintro ⟨i, hi⟩
      have hv : v i ∈ (List.finRange m).map v := List.mem_map_of_mem v (List.mem_finRange i)
      rw [hl, List.mem_cons] at hv
      rcases hv with h | h
      · exact Or.inl (h ▸ hi)
      · exact Or.inr ⟨v i, h, hi⟩

theorem maxCoeffER_pinf_exists {m : ℕ} (v : Fin m → ER) (b : ER)
    (hb : maxCoeffER v = some b) :
    (b = ER.pinf ↔ ∃ i, v i = ER.pinf) := by
  unfold maxCoeffER at hb
  rcases hl : (List.finRange m).map v with _ | ⟨x, xs⟩ <;> rw [hl] at hb
  · exact absurd hb (by simp)
  · have hmem : ∀ e : ER, e ∈ (List.finRange m).map v ↔ ∃ i, v i = e := by
      intro e
      simp [List.mem_map]
    simp only [Option.some.injEq] at hb
    subst hb
    rw [foldl_emax_eq_pinf_iff]
    constructor
    · rintro (hx | ⟨y, hy, hyc⟩)
      · obtain ⟨i, hi⟩ := (hmem x).mp (by rw [hl]; exact List.mem_cons_self x xs)
        exact ⟨i, by rw [hi]; exact hx⟩
      · obtain ⟨i, hi⟩ := (hmem y).mp (by rw [hl]; exact List.mem_cons_of_mem x hy)
        exact ⟨i, by rw [hi]; exact hyc⟩
    · rintro ⟨i, hi⟩
      have hv : v i ∈ (List.finRange m).map v := List.mem_map_of_mem v (List.mem_finRange i)
      rw [hl, List.mem_cons] at hv
      rcases hv with h | h
      · exact Or.inl (h ▸ hi)
      · exact Or.inr ⟨v i, h, hi⟩

theorem minCoeffER_ninf_exists {m : ℕ} (v : Fin m → ER) (c : ER)
    (hc : minCoeffER v = some c) :
    (c = ER.ninf ↔ ∃ i, v i = ER.ninf) := by
  unfold minCoeffER at hc
  rcases hl : (List.finRange m).map v with _ | ⟨x, xs⟩ <;> rw [hl] at hc
  · exact absurd hc (by simp)
  · have hmem : ∀ e : ER, e ∈ (List.finRange m).map v ↔ ∃ i, v i = e := by
      intro e
      simp [List.mem_map]
    simp only [Option.some.injEq] at hc
    subst hc
    rw [foldl_emin_eq_ninf_iff]
    constructor
    · rintro (hx | ⟨y, hy, hyc⟩)
      · obtain ⟨i, hi⟩ := (hmem x).mp (by rw [hl]; exact List.mem_cons_self x xs)
        exact ⟨i, by rw [hi]; exact hx⟩
      · obtain ⟨i, hi⟩ := (hmem y).mp (by rw [hl]; exact List.mem_cons_of_mem x hy)
        exact ⟨i, by rw [hi]; exact hyc⟩
    · rintro ⟨i, hi⟩
      have hv : v i ∈ (List.finRange m).map v := List.mem_map_of_mem v (List.mem_finRange i)
      rw [hl, List.mem_cons] at hv
      rcases hv with h | h
      · exact Or.inl (h ▸ hi)
      · exact Or.inr ⟨v i, h, hi⟩

theorem preflight_isSome {n m : ℕ} (pbm : QPData n m) (hm : 0 < m) :
    (preflight pbm).isSome = true := by
  unfold preflight
  obtain ⟨a, ha⟩ := Option.isSome_iff_exists.mp
    (minCoeffER_isSome hm (fun i => (pbm.u i).sub (pbm.l i)))
  obtain ⟨b, hb⟩ := Option.isSome_iff_exists.mp (maxCoeffER_isSome hm pbm.l)
  obtain ⟨c, hc⟩ := Option.isSome_iff_exists.mp (minCoeffER_isSome hm pbm.u)
  rw [ha, hb, hc]
  rfl

theorem preflight_true_iff {n m : ℕ} (pbm : QPData n m) (hm : 0 < m) :
    preflight pbm = some true ↔ PreflightBad pbm := by
  obtain ⟨a, ha⟩ := Option.isSome_iff_exists.mp
    (minCoeffER_isSome hm (fun i => (pbm.u i).sub (pbm.l i)))
  obtain ⟨b, hb⟩ := Option.isSome_iff_exists.mp (maxCoeffER_isSome hm pbm.l)
  obtain ⟨c, hc⟩ := Option.isSome_iff_exists.mp (minCoeffER_isSome hm pbm.u)
  unfold preflight
  rw [ha, hb, hc]
  simp only [Option.some.injEq, Bool.or_eq_true, decide_eq_true_eq]
  unfold PreflightBad
  rw [minCoeffER_ltb_exists _ _ _ ha, maxCoeffER_pinf_exists _ _ hb,
    minCoeffER_ninf_exists _ _ hc]
  exact or_assoc

theorem preflight_false_iff {n m : ℕ} (pbm : QPData n m) (hm : 0 < m) :
    preflight pbm = some false ↔ ¬ PreflightBad pbm := by
  obtain ⟨x, hx⟩ := Option.isSome_iff_exists.mp (preflight_isSome pbm hm)
  rw [← preflight_true_iff pbm hm]
  rw [hx]
  rcases x with _ | _ <;> simp

theorem preflight_zero_rows {n : ℕ} (pbm : QPData n 0) : preflight pbm = none := rfl

theorem solveLoop_isSome {n m : ℕ} (pbm : QPData n m) (prm : SolverParams)
    (kktSolve : (ℕ → ℚ) → ℕ → ℚ) (hK : 1 ≤ prm.stop_check_iter) :
    ∀ (r : ℕ) (s : Iterates n m) (i : ℕ),
      (solveLoop pbm prm kktSolve s i r).isSome = true := by
  intro r
  induction r with
  | zero => intro s i; rfl
  | succ r ih =>
    intro s i
    simp only [solveLoop]
    rw [if_neg (by omega)]
    split
    · split
      · rfl
      · exact ih _ _
    · exact ih _ _

theorem solveLoop_maxIters {n m : ℕ} (pbm : QPData n m) (prm : SolverParams)
    (kktSolve : (ℕ → ℚ) → ℕ → ℚ) (hK : 1 ≤ prm.stop_check_iter) :
    ∀ (r : ℕ) (s : Iterates n m) (i : ℕ),
      (∀ j : ℕ, i ≤ j → j < i + r →
        j % prm.stop_check_iter = prm.stop_check_iter - 1 →
        stopCheck pbm prm ((admmUpdate pbm prm kktSolve)^[j - i] s)
          (admmUpdate pbm prm kktSolve ((admmUpdate pbm prm kktSolve)^[j - i] s)) = none) →
      solveLoop pbm prm kktSolve s i r =
        some (.maxIters ((admmUpdate pbm prm kktSolve)^[r] s).x
          ((admmUpdate pbm prm kktSolve)^[r] s).y) := by
  intro r
  induction r with
  | zero => intro s i _; rfl
  | succ r ih =>
    intro s i hnf
    have hrec : solveLoop pbm prm kktSolve (admmUpdate pbm prm kktSolve s) (i + 1) r =
        some (.maxIters ((admmUpdate pbm prm kktSolve)^[r] (admmUpdate pbm prm kktSolve s)).x
          ((admmUpdate pbm prm kktSolve)^[r] (admmUpdate pbm prm kktSolve s)).y) := by
      apply ih
      intro j hj1 hj2 hj3
      have hj0 := hnf j (by omega) (by omega) hj3
      rw [← Function.iterate_succ_apply]
      have hji : (j - (i + 1)).succ = j - i := by omega
      rw [hji]
      exact hj0
    simp only [solveLoop]
    rw [if_neg (by omega)]
    by_cases hg : i % prm.stop_check_iter = prm.stop_check_iter - 1
    · rw [if_pos hg]
      have h0 : stopCheck pbm prm s (admmUpdate pbm prm kktSolve s) = none := by
        have := hnf i (le_refl i) (by omega) hg
        simpa using this
      rw [h0, hrec]
      rw [← Function.iterate_succ_apply]
    · rw [if_neg hg, hrec]
      rw [← Function.iterate_succ_apply]

theorem solveLoopW_agrees {n m : ℕ} (pbm : QPData n m) (prm : SolverParams)
    (kktSolve : (ℕ → ℚ) → ℕ → ℚ) (hmax : prm.max_iter < 4294967296) :
    ∀ (r i : ℕ) (s : Iterates n m), i + r = prm.max_iter →
      solveLoopW pbm prm kktSolve s i (r + 1) =
        some (solveLoop pbm prm kktSolve s i r) := by
  intro r
  induction r with
  | zero =>
    intro i s hi
    simp only [solveLoopW, solveLoop]
    rw [if_pos (by omega)]
  | succ r ih =>
    intro i s hi
    conv_lhs => rw [solveLoopW]
    conv_rhs => rw [solveLoop]
    rw [if_neg (by omega)]
    by_cases hK : prm.stop_check_iter = 0
    · rw [if_pos hK, if_pos hK]
    · rw [if_neg hK, if_neg hK]
      have hwrap : (i + 1) % 4294967296 = i + 1 := Nat.mod_eq_of_lt (by omega)
      by_cases hg : i % prm.stop_check_iter = prm.stop_check_iter - 1
      · rw [if_pos hg, if_pos hg]
        rcases hsc : stopCheck pbm prm s (admmUpdate pbm prm kktSolve s) with _ | res
        · rw [hwrap]
          exact ih (i + 1) _ (by omega)
        · rfl
      · rw [if_neg hg, if_neg hg, hwrap]
        exact ih (i + 1) _ (by omega)

theorem solveLoopW_no_exit {n m : ℕ} (pbm : QPData n m) (prm : SolverParams)
    (kktSolve : (ℕ → ℚ) → ℕ → ℚ)
    (hbig : 4294967296 ≤ prm.max_iter) (hK : 4294967296 < prm.stop_check_iter) :
    ∀ (F : ℕ) (s : Iterates n m) (i : ℕ), i < 4294967296 →
      solveLoopW pbm prm kktSolve s i F = none := by
  intro F
  induction F with
  | zero => intro s i _; rfl
  | succ F ih =>
    intro s i hi
    simp only [solveLoopW]
    rw [if_neg (by omega), if_neg (by omega), if_neg ?_]
    · exact ih _ _ (Nat.mod_lt _ (by omega))
    · rw [Nat.mod_eq_of_lt (by omega)]
      omega

theorem writeDualAux_not_mem {m : ℕ} (t : ℕ → ℚ) :
    ∀ (l : List (Fin m)) (k : ℕ) (d : Fin m → ℚ) (j : Fin m), j ∉ l →
      writeDualAux t k l d j = d j := by
  intro l
  induction l with
  | nil => intro k d j _; rfl
  | cons a rest ih =>
    intro k d j hj
    rw [List.mem_cons, not_or] at hj
    rw [writeDualAux, ih _ _ _ hj.2]
    exact Function.update_noteq hj.1 _ d

theorem writeDualAux_get {m : ℕ} (t : ℕ → ℚ) :
    ∀ (l : List (Fin m)), l.Nodup →
      ∀ (k : ℕ) (d : Fin m → ℚ) (idx : ℕ) (hidx : idx < l.length),
        writeDualAux t k l d (l.get ⟨idx, hidx⟩) = t (k + idx) := by
  intro l
  induction l with
  | nil => intro _ k d idx hidx; simp at hidx
  | cons a rest ih =>
    intro hnd k d idx hidx
    rw [writeDualAux]
    cases idx with
    | zero =>
      have ha : a ∉ rest := (List.nodup_cons.mp hnd).1
      have hget : (a :: rest).get ⟨0, hidx⟩ = a := rfl
      rw [hget, writeDualAux_not_mem t rest (k + 1) _ a ha]
      simp
    | succ idx2 =>
      have hidx2 : idx2 < rest.length := by simpa using hidx
      have hget : (a :: rest).get ⟨idx2 + 1, hidx⟩ = rest.get ⟨idx2, hidx2⟩ := rfl
      rw [hget, ih (List.nodup_cons.mp hnd).2]
      congr 1
      omega

theorem activeL_mem {m : ℕ} (dual : Fin m → ℚ) (i : Fin m) :
    i ∈ activeL dual ↔ dual i < 0 := by
  simp [activeL]

theorem activeU_mem {m : ℕ} (dual : Fin m → ℚ) (i : Fin m) :
    i ∈ activeU dual ↔ 0 < dual i := by
  simp [activeU]

theorem activeLU_nodup {m : ℕ} (dual : Fin m → ℚ) : (activeLU dual).Nodup := by
  unfold activeLU
  refine List.Nodup.append ?_ ?_ ?_
  · exact (List.nodup_finRange m).filter _
  · exact (List.nodup_finRange m).filter _
  · intro x hx hy
    rw [activeL_mem] at hx
    rw [activeU_mem] at hy
    linarith

theorem uDypScan_char {n m : ℕ} (pbm : QPData n m) (prm : SolverParams)
    (dy : Fin m → ℚ) (dyn : ℚ)
    (hu : ∀ i, pbm.u i ≠ ER.ninf) (hl : ∀ i, pbm.l i ≠ ER.pinf) :
    ∀ (l : List (Fin m)) (c : ℚ),
      uDypScan pbm prm dy dyn l (ER.fin c) =
        if ∃ i ∈ l, ScanAbort pbm prm dy dyn i then ER.pinf
        else ER.fin (c + (l.map (scanTerm pbm dy)).sum) := by
  intro l
  induction l with
  | nil => intro c; simp [uDypScan]
  | cons a rest ih =>
    intro c
    have hsplit : (∃ i ∈ a :: rest, ScanAbort pbm prm dy dyn i) ↔
        ScanAbort pbm prm dy dyn a ∨ ∃ i ∈ rest, ScanAbort pbm prm dy dyn i := by
      simp
    rcases hqa : pbm.u a with _ | q | _
    · exact absurd hqa (hu a)
    · -- u a finite: its contribution is added
      rcases hpa : pbm.l a with _ | p | _
      · -- l a = -inf: abort iff dy a < -(eps · dyn)
        by_cases habort : dy a < -(prm.eps_primal_inf * dyn)
        · have : ScanAbort pbm prm dy dyn a := Or.inr ⟨hpa, habort⟩
          rw [if_pos (hsplit.mpr (Or.inl this))]
          simp [uDypScan, hqa, hpa, ER.add, ER.mulQ, habort]
        · have hna : ¬ ScanAbort pbm prm dy dyn a := by
            rintro (⟨h1, _⟩ | ⟨_, h2⟩)
            · rw [hqa] at h1; exact ER.noConfusion h1
            · exact habort h2
          have hstep : uDypScan pbm prm dy dyn (a :: rest) (ER.fin c) =
              uDypScan pbm prm dy dyn rest (ER.fin (c + q * max 0 (dy a))) := by
            simp [uDypScan, hqa, hpa, ER.add, ER.mulQ, habort]
          rw [hstep, ih]
          simp only [hsplit, hna, false_or]
          split_ifs with hrest
          · rfl
          · have hterm : scanTerm pbm dy a = q * max 0 (dy a) := by
              simp [scanTerm, hqa, hpa, ER.toRatD]
            rw [List.map_cons, List.sum_cons, hterm]
            ring_nf
      · -- l a finite: its contribution is added
        have hna : ¬ ScanAbort pbm prm dy dyn a := by
          rintro (⟨h1, _⟩ | ⟨h1, _⟩)
          · rw [hqa] at h1; exact ER.noConfusion h1
          · rw [hpa] at h1; exact ER.noConfusion h1
        have hstep : uDypScan pbm prm dy dyn (a :: rest) (ER.fin c) =
            uDypScan pbm prm dy dyn rest
              (ER.fin (c + q * max 0 (dy a) + p * min 0 (dy a))) := by
          simp [uDypScan, hqa, hpa, ER.add, ER.mulQ]
        rw [hstep, ih]
        simp only [hsplit, hna, false_or]
        split_ifs with hrest
        · rfl
        · have hterm : scanTerm pbm dy a = q * max 0 (dy a) + p * min 0 (dy a) := by
            simp [scanTerm, hqa, hpa, ER.toRatD]
          rw [List.map_cons, List.sum_cons, hterm]
          ring_nf
      · exact absurd hpa (hl a)
    · -- u a = +inf: no u-contribution; abort iff dy a > eps · dyn
      by_cases habort : prm.eps_primal_inf * dyn < dy a
      · have : ScanAbort pbm prm dy dyn a := Or.inl ⟨hqa, habort⟩
        rw [if_pos (hsplit.mpr (Or.inl this))]
        simp [uDypScan, hqa, habort]
      · rcases hpa : pbm.l a with _ | p | _
        · -- l a = -inf: abort iff dy a < -(eps · dyn)
          by_cases habort2 : dy a < -(prm.eps_primal_inf * dyn)
          · have : ScanAbort pbm prm dy dyn a := Or.inr ⟨hpa, habort2⟩
            rw [if_pos (hsplit.mpr (Or.inl this))]
            simp [uDypScan, hqa, hpa, habort, habort2]
          · have hna : ¬ ScanAbort pbm prm dy dyn a := by
              rintro (⟨_, h2⟩ | ⟨_, h2⟩)
              · exact habort h2
              · exact habort2 h2
            have hstep : uDypScan pbm prm dy dyn (a :: rest) (ER.fin c) =
                uDypScan pbm prm dy dyn rest (ER.fin c) := by
              simp [uDypScan, hqa, hpa, habort, habort2]
            rw [hstep, ih]
            simp only [hsplit, hna, false_or]
            split_ifs with hrest
            · rfl
            · have hterm : scanTerm pbm dy a = 0 := by
                simp [scanTerm, hqa, hpa]
              rw [List.map_cons, List.sum_cons, hterm]
              ring_nf
        · -- l a finite
          have hna : ¬ ScanAbort pbm prm dy dyn a := by
            rintro (⟨_, h2⟩ | ⟨h1, _⟩)
            · exact habort h2
            · rw [hpa] at h1; exact ER.noConfusion h1
          have hstep : uDypScan pbm prm dy dyn (a :: rest) (ER.fin c) =
              uDypScan pbm prm dy dyn rest (ER.fin (c + p * min 0 (dy a))) := by
            simp [uDypScan, hqa, hpa, habort, ER.add, ER.mulQ]
          rw [hstep, ih]
          simp only [hsplit, hna, false_or]
          split_ifs with hrest
          · rfl
          · have hterm : scanTerm pbm dy a = p * min 0 (dy a) := by
              simp [scanTerm, hqa, hpa, ER.toRatD]
            rw [List.map_cons, List.sum_cons, hterm]
            ring_nf
        · exact absurd hpa (hl a)

theorem foldl_and_eq_true {α : Type} (p : α → Bool) :
    ∀ (l : List α) (b : Bool),
      (l.foldl (fun acc i => acc && p i) b = true) ↔
        (b = true ∧ ∀ i ∈ l, p i = true) := by
  intro l
  induction l with
  | nil => intro b; simp
  | cons a rest ih =>
    intro b
    rw [List.foldl_cons, ih]
    simp only [Bool.and_eq_true, List.forall_mem_cons]
    tauto

theorem finRange_one : List.finRange 1 = [0] := by decide

theorem finRange_two : List.finRange 2 = [0, 1] := by decide

/-! ## Claim theorems -/

/-- C3: for a problem with at least one constraint, if `min(u − l) < 0`,
or some `l[i] = +∞`, or some `u[i] = −∞`, then `solveQP` returns
`PrimalInfeasible` with empty primal and dual — for every value of the
KKT factorization oracle and every iteration budget, i.e. before the
KKT matrix is assembled or factorized and without any ADMM iteration —
and conversely a problem violating none of the three conditions is not
rejected by the pre-flight check. -/
theorem solveQP_preflight_reject {n m : ℕ} (pbm : QPData n m)
    (prm : SolverParams) (hot : Option ((Fin n → ℚ) × (Fin m → ℚ)))
    (kktInfo : ℤ) (kktSolve : (ℕ → ℚ) → ℕ → ℚ)
    (pInfo : ℤ) (pSolve : (ℕ → ℚ) → ℕ → ℚ) (hm : 0 < m) :
    (PreflightBad pbm →
      solveQP pbm prm hot kktInfo kktSolve pInfo pSolve =
        some ⟨ExitCode.PrimalInfeasible, none, none⟩) ∧
    (¬ PreflightBad pbm → preflight pbm = some false) := by
  constructor
  · intro hbad
    have h1 : preflight pbm = some true := (preflight_true_iff pbm hm).mpr hbad
    unfold solveQP
    rw [h1]
  · intro hgood
    exact (preflight_false_iff pbm hm).mpr hgood

/-- Witness for C3 at the concrete problem with bounds `1 ≤ x ≤ 0`. -/
theorem solveQP_preflight_reject_witness :
    (0 < 1 ∧ PreflightBad exPbmBad) ∧
      solveQP exPbmBad exPrm none 0 exSolve 0 exSolve =
        some ⟨ExitCode.PrimalInfeasible, none, none⟩ := by
  have hbad : PreflightBad exPbmBad := by
    unfold PreflightBad
    exact Or.inl ⟨0, by simp [exPbmBad, ER.sub, ER.ltb]⟩
  exact ⟨⟨Nat.one_pos, hbad⟩,
    (solveQP_preflight_reject exPbmBad exPrm none 0 exSolve 0 exSolve
      Nat.one_pos).1 hbad⟩

/-- C10: with `m = 0` constraint rows the pre-flight reductions are
over empty vectors and `solveQP` is undefined (`none` in the guarded
embedding); with at least one row the pre-flight check is defined. -/
theorem solveQP_empty_constraints {n m : ℕ} (pbm : QPData n m)
    (prm : SolverParams) (hot : Option ((Fin n → ℚ) × (Fin m → ℚ)))
    (kktInfo : ℤ) (kktSolve : (ℕ → ℚ) → ℕ → ℚ)
    (pInfo : ℤ) (pSolve : (ℕ → ℚ) → ℕ → ℚ) :
    (m = 0 → solveQP pbm prm hot kktInfo kktSolve pInfo pSolve = none) ∧
    (0 < m → (preflight pbm).isSome = true) := by
  constructor
  · intro hm
    subst hm
    unfold solveQP
    rw [preflight_zero_rows]
  · exact preflight_isSome pbm

/-- Witness for C10 at a problem with zero constraint rows. -/
theorem solveQP_empty_constraints_witness :
    (0 = 0) ∧ solveQP exPbm0 exPrm none 0 exSolve 0 exSolve = none :=
  ⟨rfl, (solveQP_empty_constraints exPbm0 exPrm none 0 exSolve 0 exSolve).1 rfl⟩

/-- C8: when the pre-flight check passes and the KKT factorization
succeeds, `stop_check_iter = 0` makes the first ADMM iteration evaluate
`i % 0` — a remainder by zero — so `solveQP` is undefined (`none` in
the guarded embedding) as soon as at least one iteration runs; with
`stop_check_iter ≥ 1` the solver is total. -/
theorem solveQP_stop_check_guard {n m : ℕ} (pbm : QPData n m)
    (prm : SolverParams) (hot : Option ((Fin n → ℚ) × (Fin m → ℚ)))
    (kktSolve : (ℕ → ℚ) → ℕ → ℚ) (pInfo : ℤ) (pSolve : (ℕ → ℚ) → ℕ → ℚ)
    (hpre : preflight pbm = some false) :
    (prm.stop_check_iter = 0 → 0 < prm.max_iter →
      solveQP pbm prm hot 0 kktSolve pInfo pSolve = none) ∧
    (1 ≤ prm.stop_check_iter →
      (solveQP pbm prm hot 0 kktSolve pInfo pSolve).isSome = true) := by
  constructor
  · intro hK hmax
    unfold solveQP
    rw [hpre, if_neg (by simp)]
    obtain ⟨r, hr⟩ := Nat.exists_eq_succ_of_ne_zero (Nat.pos_iff_ne_zero.mp hmax)
    rw [hr]
    simp only [solveLoop]
    rw [if_pos hK]
  · intro hK
    unfold solveQP
    rw [hpre, if_neg (by simp)]
    obtain ⟨res, hres⟩ := Option.isSome_iff_exists.mp
      (solveLoop_isSome pbm prm kktSolve hK prm.max_iter (initIterates pbm hot) 0)
    rw [hres]
    rcases res with ⟨x, y⟩ | _ | _ | ⟨x, y⟩
    · dsimp only
      split <;> rfl
    · rfl
    · rfl
    · rfl

/-- Witness for C8 with `stop_check_iter = 0` and a positive budget. -/
theorem solveQP_stop_check_guard_witness :
    (preflight exPbm = some false ∧ exPrmZero.stop_check_iter = 0 ∧
      0 < exPrmZero.max_iter) ∧
      solveQP exPbm exPrmZero none 0 exSolve 0 exSolve = none := by
  refine ⟨⟨by simp [preflight, minCoeffER, maxCoeffER, exPbm, finRange_one, ER.sub, ER.ltb], rfl, by decide⟩, ?_⟩
  exact (solveQP_stop_check_guard exPbm exPrmZero none exSolve 0 exSolve
    (by simp [preflight, minCoeffER, maxCoeffER, exPbm, finRange_one, ER.sub, ER.ltb])).1
    rfl (by decide)

/-- C9 (amended): when `max_iter < stop_check_iter` no iteration index
`i` satisfies `i % stop_check_iter = stop_check_iter − 1`, so no
termination check ever executes and — provided `max_iter < 2^32`, the
width of the source's loop counter — both the exact-counter loop and
`solveQP` return `MaxIterations` with the last committed iterates,
regardless of the problem data.  (For `max_iter ≥ 2^32` the counter
wraps and the loop never exits.) -/
theorem solveQP_short_budget {n m : ℕ} (pbm : QPData n m)
    (prm : SolverParams) (hot : Option ((Fin n → ℚ) × (Fin m → ℚ)))
    (kktSolve : (ℕ → ℚ) → ℕ → ℚ) (pInfo : ℤ) (pSolve : (ℕ → ℚ) → ℕ → ℚ)
    (hpre : preflight pbm = some false)
    (hlt : prm.max_iter < prm.stop_check_iter)
    (hsmall : prm.max_iter < 4294967296) :
    solveLoopW pbm prm kktSolve (initIterates pbm hot) 0 (prm.max_iter + 1) =
      some (some (LoopRes.maxIters
        ((admmUpdate pbm prm kktSolve)^[prm.max_iter] (initIterates pbm hot)).x
        ((admmUpdate pbm prm kktSolve)^[prm.max_iter] (initIterates pbm hot)).y)) ∧
    solveQP pbm prm hot 0 kktSolve pInfo pSolve =
      some ⟨ExitCode.MaxIterations,
        some ((admmUpdate pbm prm kktSolve)^[prm.max_iter] (initIterates pbm hot)).x,
        some ((admmUpdate pbm prm kktSolve)^[prm.max_iter] (initIterates pbm hot)).y⟩ := by
  have hK : 1 ≤ prm.stop_check_iter := by omega
  have hnf : ∀ j : ℕ, 0 ≤ j → j < 0 + prm.max_iter →
      j % prm.stop_check_iter = prm.stop_check_iter - 1 →
      stopCheck pbm prm
        ((admmUpdate pbm prm kktSolve)^[j - 0] (initIterates pbm hot))
        (admmUpdate pbm prm kktSolve
          ((admmUpdate pbm prm kktSolve)^[j - 0] (initIterates pbm hot))) = none := by
    intro j hj1 hj2 hj3
    exfalso
    have hjK : j < prm.stop_check_iter := by omega
    rw [Nat.mod_eq_of_lt hjK] at hj3
    omega
  have hloop := solveLoop_maxIters pbm prm kktSolve hK prm.max_iter
    (initIterates pbm hot) 0 hnf
  constructor
  · rw [solveLoopW_agrees pbm prm kktSolve hsmall prm.max_iter 0
      (initIterates pbm hot) (by omega), hloop]
  · unfold solveQP
    rw [hpre, if_neg (by simp), hloop]

/-- Witness for C9 with a budget of 4 and check interval 10. -/
theorem solveQP_short_budget_witness :
    (preflight exPbm = some false ∧
      exPrmShort.max_iter < exPrmShort.stop_check_iter ∧
      exPrmShort.max_iter < 4294967296) ∧
      (solveLoopW exPbm exPrmShort exSolve (initIterates exPbm none) 0
          (exPrmShort.max_iter + 1) =
        some (some (LoopRes.maxIters
          ((admmUpdate exPbm exPrmShort exSolve)^[exPrmShort.max_iter]
            (initIterates exPbm none)).x
          ((admmUpdate exPbm exPrmShort exSolve)^[exPrmShort.max_iter]
            (initIterates exPbm none)).y)) ∧
      solveQP exPbm exPrmShort none 0 exSolve 0 exSolve =
        some ⟨ExitCode.MaxIterations,
          some ((admmUpdate exPbm exPrmShort exSolve)^[exPrmShort.max_iter]
            (initIterates exPbm none)).x,
          some ((admmUpdate exPbm exPrmShort exSolve)^[exPrmShort.max_iter]
            (initIterates exPbm none)).y⟩) :=
  ⟨⟨by simp [preflight, minCoeffER, maxCoeffER, exPbm, finRange_one, ER.sub, ER.ltb],
      by decide, by decide⟩,
    solveQP_short_budget exPbm exPrmShort none exSolve 0 exSolve
      (by simp [preflight, minCoeffER, maxCoeffER, exPbm, finRange_one, ER.sub, ER.ltb])
      (by decide) (by decide)⟩

/-- C9 counterexample: on a problem that passes the pre-flight check,
with `max_iter = 2^32 < stop_check_iter`, the source loop — whose
counter is a 32-bit unsigned that wraps modulo `2^32` — never exits,
for any number of simulated iterations, so `solveQP` does not return
`MaxIterations` (nor anything else), contradicting the claim as
stated. -/
theorem solveQP_short_budget_counterexample :
    preflight exPbm = some false ∧
    exPrmHuge.max_iter < exPrmHuge.stop_check_iter ∧
    ∀ F : ℕ, solveLoopW exPbm exPrmHuge exSolve (initIterates exPbm none) 0 F = none :=
  ⟨by simp [preflight, minCoeffER, maxCoeffER, exPbm, finRange_one, ER.sub, ER.ltb],
    by decide,
    fun F => solveLoopW_no_exit exPbm exPrmHuge exSolve (by decide) (by decide)
      F (initIterates exPbm none) 0 (by decide)⟩

/-- C2: the budget exit of the loop is unreachable for
`max_iter = 2^32` (and a fortiori any larger value, including the
default `2^64 − 1`): the counter of
`for (auto i = 0u; i != prm.max_iter; ++i)` is a 32-bit unsigned that
wraps modulo `2^32` and never compares equal to `max_iter`, so when no
stopping criterion is ever met (here no check even runs, since
`stop_check_iter > 2^32`) the loop never returns `MaxIterations` —
against the claim that `max_iter` caps the iteration count for every
value including the default. -/
theorem solveQP_max_iter_cap_unreachable :
    ∀ F : ℕ, solveLoopW exPbm exPrmHuge exSolve (initIterates exPbm none) 0 F = none :=
  fun F => solveLoopW_no_exit exPbm exPrmHuge exSolve (by decide) (by decide)
    F (initIterates exPbm none) 0 (by decide)

/-- Supporting lemma for the non-wrapping regime: when the pre-flight
check passes, the factorization succeeds, no termination check ever
fires, and the counter does not wrap (`solveLoopW_agrees` ties this to
the exact-counter loop for `max_iter < 2^32`), `solveQP` performs
exactly `max_iter` ADMM iterations and returns `MaxIterations` with
the last committed `x` and `y`. -/
theorem solveQP_max_iterations {n m : ℕ} (pbm : QPData n m)
    (prm : SolverParams) (hot : Option ((Fin n → ℚ) × (Fin m → ℚ)))
    (kktSolve : (ℕ → ℚ) → ℕ → ℚ) (pInfo : ℤ) (pSolve : (ℕ → ℚ) → ℕ → ℚ)
    (hpre : preflight pbm = some false) (hK : 1 ≤ prm.stop_check_iter)
    (hnf : ∀ j : ℕ, j < prm.max_iter →
      j % prm.stop_check_iter = prm.stop_check_iter - 1 →
      stopCheck pbm prm
        ((admmUpdate pbm prm kktSolve)^[j] (initIterates pbm hot))
        (admmUpdate pbm prm kktSolve
          ((admmUpdate pbm prm kktSolve)^[j] (initIterates pbm hot))) = none) :
    solveQP pbm prm hot 0 kktSolve pInfo pSolve =
      some ⟨ExitCode.MaxIterations,
        some ((admmUpdate pbm prm kktSolve)^[prm.max_iter] (initIterates pbm hot)).x,
        some ((admmUpdate pbm prm kktSolve)^[prm.max_iter] (initIterates pbm hot)).y⟩ := by
  unfold solveQP
  rw [hpre, if_neg (by simp)]
  rw [solveLoop_maxIters pbm prm kktSolve hK prm.max_iter (initIterates pbm hot) 0 ?hnf2]
  case hnf2 =>
    intro j hj1 hj2 hj3
    have := hnf j (by omega) hj3
    simpa using this

/-- Evaluation of the supporting lemma with a zero iteration budget
(the no-fire hypothesis is vacuous). -/
theorem solveQP_max_iterations_witness :
    (preflight exPbm = some false ∧ 1 ≤ exPrmNoIter.stop_check_iter) ∧
      solveQP exPbm exPrmNoIter none 0 exSolve 0 exSolve =
        some ⟨ExitCode.MaxIterations,
          some ((admmUpdate exPbm exPrmNoIter exSolve)^[exPrmNoIter.max_iter]
            (initIterates exPbm none)).x,
          some ((admmUpdate exPbm exPrmNoIter exSolve)^[exPrmNoIter.max_iter]
            (initIterates exPbm none)).y⟩ :=
  ⟨⟨by simp [preflight, minCoeffER, maxCoeffER, exPbm, finRange_one, ER.sub, ER.ltb],
      by decide⟩,
    solveQP_max_iterations exPbm exPrmNoIter none exSolve 0 exSolve
      (by simp [preflight, minCoeffER, maxCoeffER, exPbm, finRange_one, ER.sub, ER.ltb])
      (by decide)
      (fun j hj _ => absurd hj (by simp [exPrmNoIter]))⟩

/-- C6: if the factorization of the regularized reduced matrix
`H'_pert` reports `info ≠ 0`, then `polishQP` sets the exit code to
`PolishFailed` and returns with the primal and dual exactly as they
were on entry. -/
theorem polishQP_failed {n m : ℕ} (pbm : QPData n m) (prm : SolverParams)
    (pInfo : ℤ) (pSolve : (ℕ → ℚ) → ℕ → ℚ) (sol : PSol n m)
    (h : pInfo ≠ 0) :
    (polishQP pbm prm pInfo pSolve sol).code = ExitCode.PolishFailed ∧
    (polishQP pbm prm pInfo pSolve sol).primal = sol.primal ∧
    (polishQP pbm prm pInfo pSolve sol).dual = sol.dual := by
  unfold polishQP
  rw [if_pos h]
  exact ⟨rfl, rfl, rfl⟩

/-- Witness for C6 with a singular factorization status. -/
theorem polishQP_failed_witness :
    ((1 : ℤ) ≠ 0) ∧
      ((polishQP exPbm2 exPrm 1 exSolve exSol).code = ExitCode.PolishFailed ∧
       (polishQP exPbm2 exPrm 1 exSolve exSol).primal = exSol.primal ∧
       (polishQP exPbm2 exPrm 1 exSolve exSol).dual = exSol.dual) :=
  ⟨by decide, polishQP_failed exPbm2 exPrm 1 exSolve exSol (by decide)⟩

/-- C7: on factorization success, the active sets are identified from
the strict signs of the entry duals (`L = {i : dual[i] < 0}`,
`U = {i : dual[i] > 0}`), `LU_idx` lists the `L` indices before the
`U` indices, the primal becomes the first `n` entries of the refined
vector `t` obtained after `polish_iter` refinement steps, the dual
entry at `LU_idx[k]` becomes `t(n + k)`, and dual entries of inactive
constraints as well as the exit code are unchanged. -/
theorem polishQP_success {n m : ℕ} (pbm : QPData n m) (prm : SolverParams)
    (pInfo : ℤ) (pSolve : (ℕ → ℚ) → ℕ → ℚ) (sol : PSol n m)
    (h : pInfo = 0) :
    (∀ i : Fin m, i ∈ activeL sol.dual ↔ sol.dual i < 0) ∧
    (∀ i : Fin m, i ∈ activeU sol.dual ↔ 0 < sol.dual i) ∧
    activeLU sol.dual = activeL sol.dual ++ activeU sol.dual ∧
    (polishQP pbm prm pInfo pSolve sol).code = sol.code ∧
    (∀ i : Fin n, (polishQP pbm prm pInfo pSolve sol).primal i =
      polishVec pbm prm pSolve sol i.val) ∧
    (∀ (k : ℕ) (hk : k < (activeLU sol.dual).length),
      (polishQP pbm prm pInfo pSolve sol).dual ((activeLU sol.dual).get ⟨k, hk⟩) =
        polishVec pbm prm pSolve sol (n + k)) ∧
    (∀ j : Fin m, j ∉ activeLU sol.dual →
      (polishQP pbm prm pInfo pSolve sol).dual j = sol.dual j) := by
  subst h
  have hpol : polishQP pbm prm 0 pSolve sol =
      { sol with
        primal := fun i => polishVec pbm prm pSolve sol i.val
        dual := writeDualAux (polishVec pbm prm pSolve sol) n
          (activeLU sol.dual) sol.dual } := by
    unfold polishQP
    rw [if_neg (by simp)]
  refine ⟨activeL_mem sol.dual, activeU_mem sol.dual, rfl, ?_, ?_, ?_, ?_⟩
  · rw [hpol]
  · intro i
    rw [hpol]
  · intro k hk
    rw [hpol]
    exact writeDualAux_get (polishVec pbm prm pSolve sol) (activeLU sol.dual)
      (activeLU_nodup sol.dual) n sol.dual k hk
  · intro j hj
    rw [hpol]
    exact writeDualAux_not_mem (polishVec pbm prm pSolve sol)
      (activeLU sol.dual) n sol.dual j hj

/-- Witness for C7 at a solution with one negative and one positive
dual entry. -/
theorem polishQP_success_witness :
    ((0 : ℤ) = 0) ∧
      ((∀ i : Fin 2, i ∈ activeL exSol.dual ↔ exSol.dual i < 0) ∧
       (∀ i : Fin 2, i ∈ activeU exSol.dual ↔ 0 < exSol.dual i) ∧
       activeLU exSol.dual = activeL exSol.dual ++ activeU exSol.dual ∧
       (polishQP exPbm2 exPrm 0 exSolve exSol).code = exSol.code ∧
       (∀ i : Fin 2, (polishQP exPbm2 exPrm 0 exSolve exSol).primal i =
         polishVec exPbm2 exPrm exSolve exSol i.val) ∧
       (∀ (k : ℕ) (hk : k < (activeLU exSol.dual).length),
         (polishQP exPbm2 exPrm 0 exSolve exSol).dual
             ((activeLU exSol.dual).get ⟨k, hk⟩) =
           polishVec exPbm2 exPrm exSolve exSol (2 + k)) ∧
       (∀ j : Fin 2, j ∉ activeLU exSol.dual →
         (polishQP exPbm2 exPrm 0 exSolve exSol).dual j = exSol.dual j)) :=
  ⟨rfl, polishQP_success exPbm2 exPrm 0 exSolve exSol rfl⟩

/-- C1: at every iteration `i` with
`i % stop_check_iter = stop_check_iter − 1` the loop runs the
termination check on the current (uncommitted) iterates, and the check
declares `Optimal` — returning the current `x` and `y` as primal and
dual — if and only if `‖Ax − z‖∞ ≤ eps_abs + eps_rel · max(‖Ax‖∞, ‖z‖∞)`
and `‖Px + q + Aᵀy‖∞ ≤ eps_abs + eps_abs · max(‖Px‖∞, ‖q‖∞, ‖Aᵀy‖∞)`
(both tolerance terms of the dual test use `eps_abs`). -/
theorem solveQP_optimal_iff {n m : ℕ} (pbm : QPData n m) (prm : SolverParams)
    (kktSolve : (ℕ → ℚ) → ℕ → ℚ) (s : Iterates n m) (i r : ℕ)
    (hK : 1 ≤ prm.stop_check_iter)
    (hi : i % prm.stop_check_iter = prm.stop_check_iter - 1) :
    ((∀ res, stopCheck pbm prm s (admmUpdate pbm prm kktSolve s) = some res →
        solveLoop pbm prm kktSolve s i (r + 1) = some res) ∧
      (stopCheck pbm prm s (admmUpdate pbm prm kktSolve s) = none →
        solveLoop pbm prm kktSolve s i (r + 1) =
          solveLoop pbm prm kktSolve (admmUpdate pbm prm kktSolve s) (i + 1) r)) ∧
    (∀ x y, stopCheck pbm prm s (admmUpdate pbm prm kktSolve s) =
        some (LoopRes.optimal x y) ↔
      (x = s.x ∧ y = s.y ∧
        vnorm (fun j => mulv pbm.A s.x j - s.z j) ≤
          prm.eps_abs + prm.eps_rel * max (vnorm (mulv pbm.A s.x)) (vnorm s.z) ∧
        vnorm (fun j => mulv pbm.P s.x j + pbm.q j + mulvT pbm.A s.y j) ≤
          prm.eps_abs + prm.eps_abs *
            max (vnorm (mulv pbm.P s.x))
              (max (vnorm pbm.q) (vnorm (mulvT pbm.A s.y))))) ∧
    (∀ (hot : Option ((Fin n → ℚ) × (Fin m → ℚ))) (pInfo : ℤ)
        (pSolve : (ℕ → ℚ) → ℕ → ℚ) (x : Fin n → ℚ) (y : Fin m → ℚ),
      prm.polish = false → preflight pbm = some false →
      solveLoop pbm prm kktSolve (initIterates pbm hot) 0 prm.max_iter =
        some (LoopRes.optimal x y) →
      solveQP pbm prm hot 0 kktSolve pInfo pSolve =
        some ⟨ExitCode.Optimal, some x, some y⟩) := by
  refine ⟨?_, ?_, ?_⟩
  · constructor
    · intro res hres
      simp only [solveLoop]
      rw [if_neg (by omega), if_pos hi, hres]
    · intro hres
      simp only [solveLoop]
      rw [if_neg (by omega), if_pos hi, hres]
  case refine_3 =>
    intro hot pInfo pSolve x y hpol hpre hloop
    unfold solveQP
    rw [hpre, if_neg (by simp), hloop, hpol]
    rfl
  intro x y
  simp only [stopCheck]
  split_ifs with hopt hpi hdi
  · constructor
    · intro he
      simp only [Option.some.injEq, LoopRes.optimal.injEq] at he
      exact ⟨he.1.symm, he.2.symm, hopt⟩
    · rintro ⟨hx, hy, _⟩
      rw [hx, hy]
  all_goals
    exact ⟨fun he => absurd he (by simp),
      fun hcon => absurd ⟨hcon.2.2.1, hcon.2.2.2⟩ hopt⟩

/-- Witness for C1 with check interval 1 at iteration 0. -/
theorem solveQP_optimal_iff_witness :
    (1 ≤ exPrm.stop_check_iter ∧
      0 % exPrm.stop_check_iter = exPrm.stop_check_iter - 1) ∧
    (((∀ res, stopCheck exPbm exPrm exIter (admmUpdate exPbm exPrm exSolve exIter) =
          some res →
        solveLoop exPbm exPrm exSolve exIter 0 (2 + 1) = some res) ∧
      (stopCheck exPbm exPrm exIter (admmUpdate exPbm exPrm exSolve exIter) = none →
        solveLoop exPbm exPrm exSolve exIter 0 (2 + 1) =
          solveLoop exPbm exPrm exSolve
            (admmUpdate exPbm exPrm exSolve exIter) (0 + 1) 2)) ∧
    (∀ x y, stopCheck exPbm exPrm exIter (admmUpdate exPbm exPrm exSolve exIter) =
        some (LoopRes.optimal x y) ↔
      (x = exIter.x ∧ y = exIter.y ∧
        vnorm (fun j => mulv exPbm.A exIter.x j - exIter.z j) ≤
          exPrm.eps_abs + exPrm.eps_rel *
            max (vnorm (mulv exPbm.A exIter.x)) (vnorm exIter.z) ∧
        vnorm (fun j => mulv exPbm.P exIter.x j + exPbm.q j +
            mulvT exPbm.A exIter.y j) ≤
          exPrm.eps_abs + exPrm.eps_abs *
            max (vnorm (mulv exPbm.P exIter.x))
              (max (vnorm exPbm.q) (vnorm (mulvT exPbm.A exIter.y))))) ∧
    (∀ (hot : Option ((Fin 1 → ℚ) × (Fin 1 → ℚ))) (pInfo : ℤ)
        (pSolve : (ℕ → ℚ) → ℕ → ℚ) (x : Fin 1 → ℚ) (y : Fin 1 → ℚ),
      exPrm.polish = false → preflight exPbm = some false →
      solveLoop exPbm exPrm exSolve (initIterates exPbm hot) 0 exPrm.max_iter =
        some (LoopRes.optimal x y) →
      solveQP exPbm exPrm hot 0 exSolve pInfo pSolve =
        some ⟨ExitCode.Optimal, some x, some y⟩)) :=
  by
  refine ⟨⟨by decide, by decide⟩, ?_⟩
  exact solveQP_optimal_iff exPbm exPrm exSolve exIter 0 2 (by decide) (by decide)

theorem dualInfFold_iff {n m : ℕ} (pbm : QPData n m) (prm : SolverParams)
    (dx : Fin n → ℚ) (dxn : ℚ) :
    dualInfFold pbm prm dx dxn = true ↔
      (vnorm (mulv pbm.P dx) ≤ prm.eps_dual_inf * dxn ∧
       dotv pbm.q dx ≤ prm.eps_dual_inf * dxn ∧
       ∀ i : Fin m,
         if pbm.u i = ER.pinf then -(prm.eps_dual_inf * dxn) ≤ mulv pbm.A dx i
         else if pbm.l i = ER.ninf then mulv pbm.A dx i ≤ prm.eps_dual_inf * dxn
         else |mulv pbm.A dx i| < prm.eps_dual_inf * dxn) := by
  unfold dualInfFold
  rw [foldl_and_eq_true]
  simp only [Bool.and_eq_true, decide_eq_true_eq, List.mem_finRange, true_implies]
  constructor
  · rintro ⟨⟨h1, h2⟩, h3⟩
    refine ⟨h1, h2, fun i => ?_⟩
    have hi := h3 i
    split_ifs at hi ⊢ <;> simp_all
  · rintro ⟨h1, h2, h3⟩
    refine ⟨⟨h1, h2⟩, fun i => ?_⟩
    have hi := h3 i
    split_ifs at hi ⊢ <;> simp_all

/-- C4: at a termination check where `Optimal` was not declared, with
`dy = y_next − y`, the accumulator `u_dyp_plus_l_dyn` equals the sum
over the constraints of `u[i]·max(0, dy[i])` (for `u[i] ≠ +∞`) plus
`l[i]·min(0, dy[i])` (for `l[i] ≠ −∞`) unless some constraint triggers
the certificate-destroying condition, in which case it is `+∞`; and the
check returns `PrimalInfeasible` if and only if
`max(‖Aᵀdy‖∞, u_dyp_plus_l_dyn) < eps_primal_inf · ‖dy‖∞`, stated as
both comparands being below the threshold. -/
theorem solveQP_primal_inf_iff {n m : ℕ} (pbm : QPData n m)
    (prm : SolverParams) (s snext : Iterates n m) (dy : Fin m → ℚ)
    (hdy : dy = fun i => snext.y i - s.y i)
    (hu : ∀ i, pbm.u i ≠ ER.ninf) (hl : ∀ i, pbm.l i ≠ ER.pinf)
    (hopt : ¬ ((vnorm fun j => mulv pbm.A s.x j - s.z j) ≤
          prm.eps_abs + prm.eps_rel * max (vnorm (mulv pbm.A s.x)) (vnorm s.z) ∧
        (vnorm fun j => mulv pbm.P s.x j + pbm.q j + mulvT pbm.A s.y j) ≤
          prm.eps_abs + prm.eps_abs *
            max (vnorm (mulv pbm.P s.x))
              (max (vnorm pbm.q) (vnorm (mulvT pbm.A s.y))))) :
    (uDypPlusLDyn pbm prm dy (vnorm dy) =
       if ∃ i, ScanAbort pbm prm dy (vnorm dy) i then ER.pinf
       else ER.fin (∑ i, scanTerm pbm dy i)) ∧
    (stopCheck pbm prm s snext = some LoopRes.primalInf ↔
      (vnorm (mulvT pbm.A dy) < prm.eps_primal_inf * vnorm dy ∧
       (uDypPlusLDyn pbm prm dy (vnorm dy)).ltb
         (ER.fin (prm.eps_primal_inf * vnorm dy)) = true)) := by
  constructor
  · unfold uDypPlusLDyn
    rw [uDypScan_char pbm prm dy (vnorm dy) hu hl]
    have hex : (∃ i ∈ List.finRange m, ScanAbort pbm prm dy (vnorm dy) i) ↔
        (∃ i, ScanAbort pbm prm dy (vnorm dy) i) := by simp
    have hsum : ((List.finRange m).map (scanTerm pbm dy)).sum =
        ∑ i, scanTerm pbm dy i := by
      rw [← List.ofFn_eq_map, List.sum_ofFn]
    simp only [hex, hsum, zero_add]
  · subst hdy
    simp only [stopCheck]
    rw [if_neg hopt]
    by_cases hdec :
      ((ER.fin (vnorm (mulvT pbm.A fun i => snext.y i - s.y i))).emax
        (uDypPlusLDyn pbm prm (fun i => snext.y i - s.y i)
          (vnorm fun i => snext.y i - s.y i))).ltb
        (ER.fin (prm.eps_primal_inf * vnorm fun i => snext.y i - s.y i)) = true
    · rw [if_pos hdec]
      have h2 := (ER.emax_ltb_iff _ _ _).mp hdec
      have h3 : vnorm (mulvT pbm.A fun i => snext.y i - s.y i) <
          prm.eps_primal_inf * vnorm fun i => snext.y i - s.y i := by
        have := h2.1
        simpa [ER.ltb] using this
      exact ⟨fun _ => ⟨h3, h2.2⟩, fun _ => rfl⟩
    · rw [if_neg hdec]
      constructor
      · intro he
        exfalso
        split_ifs at he <;> simp at he
      · rintro ⟨ha, hb⟩
        exfalso
        apply hdec
        rw [ER.emax_ltb_iff]
        exact ⟨by simpa [ER.ltb] using ha, hb⟩

/-- C5: at a termination check where neither `Optimal` nor
`PrimalInfeasible` was declared, with `dx = x_next − x`, the check
returns `DualInfeasible` if and only if `‖P dx‖∞ ≤ eps_dual_inf·‖dx‖∞`,
`qᵀdx ≤ eps_dual_inf·‖dx‖∞`, and for every constraint `i`:
`(A dx)[i] ≥ −eps_dual_inf·‖dx‖∞` when `u[i] = +∞`, else
`(A dx)[i] ≤ eps_dual_inf·‖dx‖∞` when `l[i] = −∞`, else
`|(A dx)[i]| < eps_dual_inf·‖dx‖∞` strictly. -/
theorem solveQP_dual_inf_iff {n m : ℕ} (pbm : QPData n m)
    (prm : SolverParams) (s snext : Iterates n m)
    (dx : Fin n → ℚ) (dy : Fin m → ℚ)
    (hdx : dx = fun i => snext.x i - s.x i)
    (hdy : dy = fun i => snext.y i - s.y i)
    (hopt : ¬ ((vnorm fun j => mulv pbm.A s.x j - s.z j) ≤
          prm.eps_abs + prm.eps_rel * max (vnorm (mulv pbm.A s.x)) (vnorm s.z) ∧
        (vnorm fun j => mulv pbm.P s.x j + pbm.q j + mulvT pbm.A s.y j) ≤
          prm.eps_abs + prm.eps_abs *
            max (vnorm (mulv pbm.P s.x))
              (max (vnorm pbm.q) (vnorm (mulvT pbm.A s.y)))))
    (hpi : ¬ ((ER.fin (vnorm (mulvT pbm.A dy))).emax
        (uDypPlusLDyn pbm prm dy (vnorm dy))).ltb
        (ER.fin (prm.eps_primal_inf * vnorm dy)) = true) :
    stopCheck pbm prm s snext = some LoopRes.dualInf ↔
      (vnorm (mulv pbm.P dx) ≤ prm.eps_dual_inf * vnorm dx ∧
       dotv pbm.q dx ≤ prm.eps_dual_inf * vnorm dx ∧
       ∀ i : Fin m,
         if pbm.u i = ER.pinf then
           -(prm.eps_dual_inf * vnorm dx) ≤ mulv pbm.A dx i
         else if pbm.l i = ER.ninf then
           mulv pbm.A dx i ≤ prm.eps_dual_inf * vnorm dx
         else |mulv pbm.A dx i| < prm.eps_dual_inf * vnorm dx) := by
  subst hdx
  subst hdy
  simp only [stopCheck]
  rw [if_neg hopt, if_neg hpi]
  by_cases hf : dualInfFold pbm prm (fun i => snext.x i - s.x i)
      (vnorm fun i => snext.x i - s.x i) = true
  · rw [if_pos hf]
    exact ⟨fun _ => (dualInfFold_iff pbm prm _ _).mp hf, fun _ => rfl⟩
  · rw [if_neg hf]
    constructor
    · intro he
      exact absurd he (by simp)
    · intro hc
      exact absurd ((dualInfFold_iff pbm prm _ _).mpr hc) hf

/-- At the zero iterates of the example problem the optimality test
fails (the dual residual is 4, far above the tolerance). -/
theorem exHoptFact : ¬ ((vnorm fun j => mulv exPbm.A exIter.x j - exIter.z j) ≤
      exPrm.eps_abs + exPrm.eps_rel *
        max (vnorm (mulv exPbm.A exIter.x)) (vnorm exIter.z) ∧
    (vnorm fun j => mulv exPbm.P exIter.x j + exPbm.q j +
        mulvT exPbm.A exIter.y j) ≤
      exPrm.eps_abs + exPrm.eps_abs *
        max (vnorm (mulv exPbm.P exIter.x))
          (max (vnorm exPbm.q) (vnorm (mulvT exPbm.A exIter.y)))) := by
  intro h
  have h2 := h.2
  simp [vnorm, mulv, mulvT, exPbm, exIter, exPrm, finRange_one,
    Fin.sum_univ_one, List.foldl] at h2
  norm_num at h2

/-- At `dy = 1` the primal-infeasibility decision fails for the example
problem (`‖Aᵀdy‖∞ = 1` is not below the threshold). -/
theorem exHpiFact : ¬ ((ER.fin (vnorm (mulvT exPbm.A
      fun i => exIterNext.y i - exIter.y i))).emax
    (uDypPlusLDyn exPbm exPrm (fun i => exIterNext.y i - exIter.y i)
      (vnorm fun i => exIterNext.y i - exIter.y i))).ltb
    (ER.fin (exPrm.eps_primal_inf *
      vnorm fun i => exIterNext.y i - exIter.y i)) = true := by
  simp [uDypPlusLDyn, uDypScan, finRange_one, exPbm, exPrm, exIter, exIterNext,
    vnorm, mulvT, ER.add, ER.mulQ, ER.emax, ER.ltb, Fin.sum_univ_one, List.foldl]
  norm_num

/-- Witness for C4 at the example problem with `dy = 1`. -/
theorem solveQP_primal_inf_iff_witness :
    ((∀ i, exPbm.u i ≠ ER.ninf) ∧ (∀ i, exPbm.l i ≠ ER.pinf)) ∧
    ((uDypPlusLDyn exPbm exPrm (fun i => exIterNext.y i - exIter.y i)
        (vnorm fun i => exIterNext.y i - exIter.y i) =
       if ∃ i, ScanAbort exPbm exPrm (fun i => exIterNext.y i - exIter.y i)
           (vnorm fun i => exIterNext.y i - exIter.y i) i then ER.pinf
       else ER.fin (∑ i, scanTerm exPbm
         (fun i => exIterNext.y i - exIter.y i) i)) ∧
     (stopCheck exPbm exPrm exIter exIterNext = some LoopRes.primalInf ↔
       ((vnorm (mulvT exPbm.A fun i => exIterNext.y i - exIter.y i)) <
          exPrm.eps_primal_inf * vnorm (fun i => exIterNext.y i - exIter.y i) ∧
        (uDypPlusLDyn exPbm exPrm (fun i => exIterNext.y i - exIter.y i)
            (vnorm fun i => exIterNext.y i - exIter.y i)).ltb
          (ER.fin (exPrm.eps_primal_inf *
            vnorm fun i => exIterNext.y i - exIter.y i)) = true))) := by
  refine ⟨⟨by decide, by decide⟩, ?_⟩
  exact solveQP_primal_inf_iff exPbm exPrm exIter exIterNext
    (fun i => exIterNext.y i - exIter.y i) rfl (by decide) (by decide) exHoptFact

/-- Witness for C5 at the example problem with `dx = dy = 1`. -/
theorem solveQP_dual_inf_iff_witness :
    stopCheck exPbm exPrm exIter exIterNext = some LoopRes.dualInf ↔
      (vnorm (mulv exPbm.P fun i => exIterNext.x i - exIter.x i) ≤
         exPrm.eps_dual_inf * vnorm (fun i => exIterNext.x i - exIter.x i) ∧
       dotv exPbm.q (fun i => exIterNext.x i - exIter.x i) ≤
         exPrm.eps_dual_inf * vnorm (fun i => exIterNext.x i - exIter.x i) ∧
       ∀ i : Fin 1,
         if exPbm.u i = ER.pinf then
           -(exPrm.eps_dual_inf * vnorm (fun i => exIterNext.x i - exIter.x i)) ≤
             mulv exPbm.A (fun i => exIterNext.x i - exIter.x i) i
         else if exPbm.l i = ER.ninf then
           mulv exPbm.A (fun i => exIterNext.x i - exIter.x i) i ≤
             exPrm.eps_dual_inf * vnorm (fun i => exIterNext.x i - exIter.x i)
         else |mulv exPbm.A (fun i => exIterNext.x i - exIter.x i) i| <
           exPrm.eps_dual_inf * vnorm (fun i => exIterNext.x i - exIter.x i)) := by
  exact solveQP_dual_inf_iff exPbm exPrm exIter exIterNext
    (fun i => exIterNext.x i - exIter.x i) (fun i => exIterNext.y i - exIter.y i)
    rfl rfl exHoptFact exHpiFact

end SmoothFeedback
